import Mathlib

/-!
Verification of the crawl/checkpoint engine of the filament-color scraper
(`src/filament_scraper.py`).  The Python code is shallowly embedded: SQLite
rows become keyed maps of field values, the worker thread's loop becomes a
structurally recursive function over the index sequence, the progress file
becomes an optional single-slot value, and the infinite-scroll discovery
loop becomes a fuel-indexed loop over a stream of polls.
-/

/-- Values appearing in a scraped data dict or a stored row: Python `None`,
a string, or a non-negative integer (rgb components and the 0/1 flags). -/
inductive PyVal where
  | vnone : PyVal
  | str : String → PyVal
  | int : Nat → PyVal
deriving DecidableEq

/-- Python truthiness of such a value: `None`, `''` and `0` are falsy. -/
def truthy : PyVal → Bool
  | .vnone => false
  | .str s => s ≠ ""
  | .int n => n ≠ 0

/-- The emptiness test of `save_filament` (line 653):
`existing_val is None or existing_val == '' or existing_val == 0`. -/
def isEmptyVal : PyVal → Bool
  | .vnone => true
  | .str s => s = ""
  | .int n => n = 0

theorem isEmptyVal_eq_not_truthy (v : PyVal) : isEmptyVal v = !truthy v := by
  cases v <;> simp [isEmptyVal, truthy]

/-- The sixteen mergeable columns of `field_mapping` in `save_filament`
(lines 629-646). -/
inductive FieldName where
  | name | manufacturer | color_name | material_type | hex_color
  | rgb_r | rgb_g | rgb_b | temperature_bed | temperature_hotend
  | is_transparent | is_glitter | is_glow | notes | image_url | td_hex
deriving DecidableEq

/-- The three flag columns inserted with `data.get(field, 0)`
(lines 611-613 and 684-686). -/
def isFlagField : FieldName → Bool
  | .is_transparent | .is_glitter | .is_glow => true
  | _ => false

/-- A scraped data dict restricted to the mergeable fields plus tags;
a key that is absent from the dict is `vnone` (Python `data.get` yields
`None` for it). -/
structure ScrapeData where
  fields : FieldName → PyVal
  tags : List String

/-- The mergeable part of a stored `filaments` row plus its tag rows. -/
structure FRecord where
  fields : FieldName → PyVal
  tags : List String

/-- Python `data.get(field, 0)`, used for the three flags. -/
def getD0 : PyVal → PyVal
  | .vnone => .int 0
  | v => v

/-- FieldName values written by the INSERT branch of `save_filament`
(lines 666-690): every mergeable field as provided, flags defaulting to 0. -/
def insertFields (d : ScrapeData) : FieldName → PyVal :=
  fun f => if isFlagField f then getD0 (d.fields f) else d.fields f

/-- The INSERT branch of `save_filament` (lines 664-691). -/
def insertRec (d : ScrapeData) : FRecord :=
  { fields := insertFields d, tags := d.tags }

/-- The `full_update` UPDATE branch of `save_filament` (lines 590-618):
every mergeable field is overwritten from the new data, flags defaulting
to 0; the previous row does not influence the result. -/
def fullMergeRec (_r : FRecord) (d : ScrapeData) : FRecord :=
  { fields := insertFields d, tags := d.tags }

/-- One field of the incremental UPDATE branch (lines 648-655): replace the
stored value only when it is empty/absent/zero and the new value is truthy. -/
def incMergeField (old new : PyVal) : PyVal :=
  if isEmptyVal old && truthy new then new else old

theorem incMergeField_eq_new {old new : PyVal}
    (h : (isEmptyVal old && truthy new) = true) : incMergeField old new = new := by
  unfold incMergeField
  rw [h]
  rfl

theorem incMergeField_eq_old {old new : PyVal}
    (h : ¬(isEmptyVal old && truthy new) = true) : incMergeField old new = old := by
  unfold incMergeField
  rw [Bool.not_eq_true] at h
  rw [h]
  rfl

/-- The incremental UPDATE branch of `save_filament` (lines 619-663),
per field, with tags always fully replaced (lines 693-701). -/
def incMergeRec (r : FRecord) (d : ScrapeData) : FRecord :=
  { fields := fun f => incMergeField (r.fields f) (d.fields f), tags := d.tags }

/-- The record stored by `save_filament` for a key, depending on whether a
row already exists and on `full_update`. -/
def saveRec (r? : Option FRecord) (d : ScrapeData) (fullUpdate : Bool) : FRecord :=
  match r? with
  | none => insertRec d
  | some r => if fullUpdate then fullMergeRec r d else incMergeRec r d

/-- The record store: the `filaments` table keyed by its UNIQUE `url`
column (plus the dependent tag rows). -/
def Store : Type := String → Option FRecord

/-- `save_filament` at the store level: upsert the row whose `url` is `url`. -/
def saveFilament (s : Store) (url : String) (d : ScrapeData) (fullUpdate : Bool) : Store :=
  fun k => if k = url then some (saveRec (s url) d fullUpdate) else s k

/-- The data dict as it stands after `save_filament` returns, i.e. the dict
emitted through `filament_added` (line 254).  In the incremental branch the
code copies each stored truthy value into the dict when the new value is
falsy (lines 656-658); the other branches leave the dict unchanged. -/
def mergedNotification (r? : Option FRecord) (d : ScrapeData) (fullUpdate : Bool) : ScrapeData :=
  match r?, fullUpdate with
  | some r, false =>
    { fields := fun f =>
        if truthy (r.fields f) && !truthy (d.fields f) then r.fields f else d.fields f,
      tags := d.tags }
  | _, _ => d

/-- Completeness of an optional row: `is_entry_complete` returns False for a
missing row, and otherwise checks `name and manufacturer and hex_color`
(lines 159-177; the other selected columns are not used in the test). -/
def entryComplete (r? : Option FRecord) : Bool :=
  match r? with
  | none => false
  | some r =>
    truthy (r.fields .name) && truthy (r.fields .manufacturer) &&
      truthy (r.fields .hex_color)

/-- `is_entry_complete(conn, url)` at the store level. -/
def isEntryComplete (s : Store) (url : String) : Bool :=
  entryComplete (s url)

/-- Value of one hexadecimal digit, accepting both cases, as Python
`int(-, 16)` does. -/
def hexDigitVal (c : Char) : Option Nat :=
  if '0' ≤ c ∧ c ≤ '9' then some (c.toNat - '0'.toNat)
  else if 'a' ≤ c ∧ c ≤ 'f' then some (c.toNat - 'a'.toNat + 10)
  else if 'A' ≤ c ∧ c ≤ 'F' then some (c.toNat - 'A'.toNat + 10)
  else none

/-- Python `int(String.mk [a, b], 16)` for two hex digits. -/
def hexPairVal (a b : Char) : Option Nat := do
  let x ← hexDigitVal a
  let y ← hexDigitVal b
  pure (16 * x + y)

/-- Parsing of exactly six hex digits into an rgb triple:
`int(hex_val[0:2], 16)`, `int(hex_val[2:4], 16)`, `int(hex_val[4:6], 16)`
(lines 494-496); any other length, or a non-hex digit, yields `none`. -/
def parseSixHex : List Char → Option (Nat × Nat × Nat)
  | [a, b, c, d, e, f] => do
    let r ← hexPairVal a b
    let g ← hexPairVal c d
    let bl ← hexPairVal e f
    pure (r, g, bl)
  | _ => none

/-- Decoding of a canonical primary-color hex string, `'#'` followed by the
six digits, into its rgb triple.  This is the decode relation of the §3
invariant: a stored hex must decode to exactly the stored rgb triple. -/
def decodeHexColor (s : String) : Option (Nat × Nat × Nat) :=
  match s.toList with
  | '#' :: rest => parseSixHex rest
  | _ => none

/-- The hex-to-rgb conversion of `scrape_filament_page` (lines 490-496):
`hex_val = data['hex_color'].lstrip('#')`, and when six characters remain
(`len(hex_val) == 6`, expressed here by the six-element pattern of
`parseSixHex`), the three pair conversions; a non-hex digit raises, which
the surrounding `try` turns into a failed scrape (`none`). -/
def hexToRgbData (hex : String) : Option (Nat × Nat × Nat) :=
  if (hex.toList.dropWhile (· == '#')).length = 6 then
    parseSixHex (hex.toList.dropWhile (· == '#'))
  else none

/-- The §3 record invariant on a field assignment: when the primary-color
hex is truthy, the rgb triple is present (three integer values) and the hex
decodes to exactly that triple.  Absence of the rgb triple therefore forces
absence of the hex (the contrapositive). -/
def hexRgbConsistent (fs : FieldName → PyVal) : Bool :=
  if truthy (fs .hex_color) then
    match fs .hex_color, fs .rgb_r, fs .rgb_g, fs .rgb_b with
    | .str h, .int r, .int g, .int b => decodeHexColor h == some (r, g, b)
    | _, _, _, _ => false
  else true

/-- Mutable state of the infinite-scroll loop of `get_filament_list`
(lines 303-317): the accumulated url collection, `last_count`, and
`no_change_count`.  The contents of the Python `set` are represented as a
duplicate-free list in insertion order; this representation fixes only the
membership and the size of the set.  The order in which the real set is
iterated by `list(urls)` at line 388 is unspecified (CPython hash order)
and is modelled separately, by the enumeration parameter of
`getFilamentListRun`. -/
structure DiscoState where
  urls : List String
  lastCount : Nat
  noChange : Nat
deriving DecidableEq

/-- `urls.add(full_url)`: add a key unless it is already present. -/
def addUrl (acc : List String) (u : String) : List String :=
  if u ∈ acc then acc else acc ++ [u]

/-- Union of one poll's extracted links into the accumulated collection
(lines 330-335). -/
def collectLinks (acc : List String) (links : List String) : List String :=
  links.foldl addUrl acc

/-- One iteration of the scroll loop (lines 317-386).  A successful poll
delivers the links currently visible and runs the growth check of
lines 358-363; an exception while polling (`none`) only increments
`no_change_count` (lines 383-386). -/
def pollStep (st : DiscoState) (poll : Option (List String)) : DiscoState :=
  match poll with
  | none => { st with noChange := st.noChange + 1 }
  | some links =>
    let urls2 := collectLinks st.urls links
    if urls2.length = st.lastCount then
      { urls := urls2, lastCount := st.lastCount, noChange := st.noChange + 1 }
    else
      { urls := urls2, lastCount := urls2.length, noChange := 0 }

/-- State of the scroll loop after the first `t` polls of the stream
`polls`, starting from the empty collection (lines 305-315). -/
def discoStateAt (polls : Nat → Option (List String)) : Nat → DiscoState
  | 0 => ⟨[], 0, 0⟩
  | t + 1 => pollStep (discoStateAt polls t) (polls t)

/-- The scroll loop of `get_filament_list`: while `no_change_count < 5`,
poll and step; on exit return the collected url contents (in their
insertion-ordered representation) together with the number of polls
executed.  The Python loop has no fuel bound; `none` marks exhaustion of
the fuel budget. -/
def discoverLoop (polls : Nat → Option (List String)) :
    Nat → Nat → DiscoState → Option (List String × Nat)
  | 0, _, _ => none
  | fuel + 1, t, st =>
    if 5 ≤ st.noChange then some (st.urls, t)
    else discoverLoop polls fuel (t + 1) (pollStep st (polls t))

/-- `get_filament_list` from the initial (post-page-load) state, up to the
order of the returned sequence. -/
def getFilamentList (polls : Nat → Option (List String)) (fuel : Nat) :
    Option (List String × Nat) :=
  discoverLoop polls fuel 0 ⟨[], 0, 0⟩

/-- `return list(urls)` at line 388, with the set's iteration order made
explicit: CPython enumerates a set of strings in an unspecified,
hash-seed-dependent order, so the conversion is modelled by an enumeration
parameter `enum`, about which the program guarantees only that it
enumerates exactly the collection's elements (a permutation of the
insertion-ordered representation). -/
def getFilamentListRun (enum : List String → List String)
    (polls : Nat → Option (List String)) (fuel : Nat) :
    Option (List String × Nat) :=
  match getFilamentList polls fuel with
  | none => none
  | some (urls, t) => some (enum urls, t)

/-- Content of the progress file `scrape_progress.json`
(`save_progress`, lines 116-127). -/
structure Checkpoint where
  urls : List String
  index : Nat
  timestamp : String
deriving DecidableEq

/-- `save_progress`: when the url list is non-empty, overwrite the single
slot with the current state and report True; otherwise leave the slot
alone and report False (lines 116-127). -/
def saveProgress (slot : Option Checkpoint) (urls : List String) (index : Nat)
    (timestamp : String) : Option Checkpoint × Bool :=
  if urls.isEmpty then (slot, false) else (some ⟨urls, index, timestamp⟩, true)

/-- `load_progress`: return the slot's content, or `none` when the file is
absent (lines 129-138). -/
def loadProgress (slot : Option Checkpoint) : Option Checkpoint :=
  slot

/-- `clear_progress`: delete the file if it exists; deleting an absent file
is a no-op (lines 140-144). -/
def clearProgress (_slot : Option Checkpoint) : Option Checkpoint :=
  none

/-- Per-key skip-or-fetch decision of the iteration loop (lines 242-254)
expressed on the single row the key can touch: a complete entry is skipped
unless `full_update`; otherwise the page is scraped, a failed scrape is a
no-op, and a successful scrape is upserted by `save_filament`. -/
def upsertStep (scrape : String → Option ScrapeData) (fullUpdate : Bool)
    (url : String) (r? : Option FRecord) : Option FRecord :=
  if !fullUpdate && entryComplete r? then r?
  else
    match scrape url with
    | none => r?
    | some d => some (saveRec r? d fullUpdate)

/-- Effect of one iteration of the crawl loop on the record store: only the
row keyed by `url` changes. -/
def stepStore (scrape : String → Option ScrapeData) (fullUpdate : Bool)
    (s : Store) (url : String) : Store :=
  fun k => if k = url then upsertStep scrape fullUpdate url (s url) else s k

/-- Mutable state of `run`'s iteration loop (lines 231-279): the store
behind `conn`, the `count` and `skipped` counters, `self.current_index`,
and the list of indices the loop has visited. -/
structure LoopState where
  store : Store
  count : Nat
  skipped : Nat
  currentIndex : Nat
  processed : List Nat

/-- One iteration of the crawl loop at index `i` (lines 239-279):
record `current_index`, skip a complete entry unless `full_update`
(lines 242-247), otherwise scrape and save (lines 249-254); a scrape
failure only logs (lines 257-261). -/
def visitIndex (scrape : String → Option ScrapeData) (fullUpdate : Bool)
    (st : LoopState) (i : Nat) (url : String) : LoopState :=
  if !fullUpdate && isEntryComplete st.store url then
    { st with skipped := st.skipped + 1, currentIndex := i,
              processed := st.processed ++ [i] }
  else
    match scrape url with
    | none => { st with currentIndex := i, processed := st.processed ++ [i] }
    | some d =>
      { st with store := saveFilament st.store url d fullUpdate,
                count := st.count + 1, currentIndex := i,
                processed := st.processed ++ [i] }

/-- The `for i in range(start_index, len(urls_to_scrape))` loop of `run`
(lines 235-279) over the remaining index sequence: the cooperative
`self.running` check at the top of each iteration (lines 236-237) is the
predicate `halt`. -/
def crawlLoop (scrape : String → Option ScrapeData) (fullUpdate : Bool)
    (urls : List String) (halt : Nat → Bool) :
    List Nat → LoopState → LoopState
  | [], st => st
  | i :: rest, st =>
    if halt i then st
    else crawlLoop scrape fullUpdate urls halt rest
      (visitIndex scrape fullUpdate st i (urls.getD i ""))

/-- Control requests the presentation layer can send while the worker runs:
`pause` sets both `paused_flag` and `running = False` (lines 111-114),
`stop` only clears `running` (lines 103-109). -/
inductive Req where
  | pause
  | stop
deriving DecidableEq

/-- Terminal signal of a run: `finished_signal(count)` (line 292) or
`paused(current_index, total)` (line 288). -/
inductive Outcome where
  | finished (count : Nat)
  | pausedAt (idx total : Nat)
deriving DecidableEq

/-- Observable result of one execution of `run` (lines 198-292). -/
structure RunResult where
  store : Store
  processed : List Nat
  currentIndex : Nat
  count : Nat
  savedCheckpoint : Option (List String × Nat)
  cleared : Bool
  outcome : Outcome

/-- An interrupt `(p, kind)` makes the `self.running` check fail at the top
of every iteration with index at least `p` (the request is observed
cooperatively, once per iteration). -/
def haltOf (intr : Option (Nat × Req)) : Nat → Bool :=
  fun i =>
    match intr with
    | some (p, _) => p ≤ i
    | none => false

/-- `paused_flag` is set exactly by a pause request (lines 111-114). -/
def pauseRequested (intr : Option (Nat × Req)) : Bool :=
  match intr with
  | some (_, .pause) => true
  | _ => false

/-- The iteration phase and exit phase of `run` (lines 229-292) over a
given url sequence and start index (cursor 0 for a fresh discovery, the
saved index on resume, lines 206-212).  After the loop: a pause saves
`{urls, current_index}` and emits `paused` (lines 286-288); otherwise the
progress file is deleted and `finished_signal(count)` is emitted
(lines 289-292). -/
def runScraper (scrape : String → Option ScrapeData) (fullUpdate : Bool)
    (s0 : Store) (urls : List String) (startIdx : Nat)
    (intr : Option (Nat × Req)) : RunResult :=
  let fin := crawlLoop scrape fullUpdate urls (haltOf intr)
    (List.range' startIdx (urls.length - startIdx))
    { store := s0, count := 0, skipped := 0, currentIndex := 0, processed := [] }
  if pauseRequested intr then
    { store := fin.store, processed := fin.processed,
      currentIndex := fin.currentIndex, count := fin.count,
      savedCheckpoint := if urls.isEmpty then none else some (urls, fin.currentIndex),
      cleared := false,
      outcome := .pausedAt fin.currentIndex urls.length }
  else
    { store := fin.store, processed := fin.processed,
      currentIndex := fin.currentIndex, count := fin.count,
      savedCheckpoint := none, cleared := true,
      outcome := .finished fin.count }

/-- A scrape result providing no field and no tag. -/
def emptyScrape : ScrapeData := ⟨fun _ => .vnone, []⟩

/-- A remote source on which every page scrape succeeds with the empty
partial record. -/
def scrapeConst : String → Option ScrapeData := fun _ => some emptyScrape

/-- The record store of a fresh database. -/
def emptyStore : Store := fun _ => none

/-- A stored row that is complete: name `Red`, manufacturer `X`, primary
color `#FF0000` with rgb (255, 0, 0). -/
def recRedX : FRecord :=
  ⟨fun f => match f with
    | .name => .str "Red" | .manufacturer => .str "X"
    | .hex_color => .str "#FF0000"
    | .rgb_r => .int 255 | .rgb_g => .int 0 | .rgb_b => .int 0
    | _ => .vnone, []⟩

/-- A store holding `recRedX` under the key `A`. -/
def storeA : Store := fun k => if k = "A" then some recRedX else none

/-- A partial update providing only the name `Blue`. -/
def dataBlue : ScrapeData :=
  ⟨fun f => match f with | .name => .str "Blue" | _ => .vnone, []⟩

/-- A partial update providing the empty string for name. -/
def dataEmptyName : ScrapeData :=
  ⟨fun f => match f with | .name => .str "" | _ => .vnone, []⟩

/-- C1: in incremental mode, for every existing record `R`, partial update
`P` and mergeable field `f`, a non-empty stored `R.f` is unchanged by
`upsert(key, P, false)` whatever `P.f` is, and a stored field changes only
when it was empty/absent/zero and the new value is non-empty (in which
case it takes the new value). -/
theorem claim1_incremental_never_regresses (s : Store) (k : String)
    (P : ScrapeData) (R : FRecord) (f : FieldName) (hR : s k = some R) :
    (truthy (R.fields f) = true →
      ∃ R', saveFilament s k P false k = some R' ∧ R'.fields f = R.fields f)
    ∧ (∀ R', saveFilament s k P false k = some R' → R'.fields f ≠ R.fields f →
        isEmptyVal (R.fields f) = true ∧ truthy (P.fields f) = true ∧
          R'.fields f = P.fields f) := by
  have hsf : saveFilament s k P false k = some (incMergeRec R P) := by
    simp [saveFilament, hR, saveRec]
  constructor
  · intro ht
    refine ⟨incMergeRec R P, hsf, ?_⟩
    simp [incMergeRec, incMergeField, isEmptyVal_eq_not_truthy, ht]
  · intro R' hR' hne
    rw [hsf] at hR'
    injection hR' with h
    subst h
    by_cases hc : (isEmptyVal (R.fields f) && truthy (P.fields f)) = true
    · obtain ⟨h1, h2⟩ := Bool.and_eq_true _ _ ▸ hc
      refine ⟨h1, h2, ?_⟩
      show incMergeField (R.fields f) (P.fields f) = P.fields f
      exact incMergeField_eq_new hc
    · exfalso
      apply hne
      show incMergeField (R.fields f) (P.fields f) = R.fields f
      exact incMergeField_eq_old hc

/-- Witness for C1: the stored name `Red` survives the incremental upsert
of a partial record carrying the name `Blue`. -/
theorem claim1_witness :
    truthy (recRedX.fields .name) = true ∧
      ∃ R', saveFilament storeA "A" dataBlue false "A" = some R' ∧
        R'.fields .name = recRedX.fields .name :=
  ⟨by decide,
    (claim1_incremental_never_regresses storeA "A" dataBlue recRedX .name rfl).1
      (by decide)⟩

/-- C2: in full-refresh mode, an upsert on an existing record overwrites
every provided mergeable field with the new value, a previously non-empty
stored value being overwritten even by an empty provided value. -/
theorem claim2_full_refresh_overwrites (s : Store) (k : String)
    (P : ScrapeData) (R : FRecord) (f : FieldName) (hR : s k = some R)
    (hprov : P.fields f ≠ PyVal.vnone) :
    ∃ R', saveFilament s k P true k = some R' ∧ R'.fields f = P.fields f := by
  refine ⟨fullMergeRec R P, by simp [saveFilament, hR, saveRec], ?_⟩
  show insertFields P f = P.fields f
  unfold insertFields
  by_cases hf : isFlagField f = true
  · rw [if_pos hf]
    cases hv : P.fields f with
    | vnone => exact absurd hv hprov
    | str s => rfl
    | int n => rfl
  · rw [if_neg hf]

/-- Witness for C2: the full-refresh upsert replaces the non-empty stored
name `Red` with the provided empty string. -/
theorem claim2_witness :
    dataEmptyName.fields .name ≠ PyVal.vnone ∧
      ∃ R', saveFilament storeA "A" dataEmptyName true "A" = some R' ∧
        R'.fields .name = dataEmptyName.fields .name :=
  ⟨by decide,
    claim2_full_refresh_overwrites storeA "A" dataEmptyName recRedX .name rfl
      (by decide)⟩

/-- C8: for a non-empty url sequence, saving a checkpoint and loading it
returns exactly the saved sequence, cursor and timestamp; a save fully
replaces any prior slot content; loading after a clear yields `none`, and
clearing twice is the same as clearing once (clearing an absent checkpoint
is a no-op, not an error). -/
theorem claim8_checkpoint_roundtrip (slot slot' : Option Checkpoint)
    (urls : List String) (index : Nat) (ts : String) (h : urls ≠ []) :
    loadProgress (saveProgress slot urls index ts).1 = some ⟨urls, index, ts⟩
    ∧ (saveProgress slot urls index ts).1 = (saveProgress slot' urls index ts).1
    ∧ loadProgress (clearProgress slot) = none
    ∧ clearProgress (clearProgress slot) = clearProgress slot := by
  have hne : urls.isEmpty = false := by
    cases urls with
    | nil => exact absurd rfl h
    | cons a t => rfl
  refine ⟨?_, ?_, rfl, rfl⟩ <;> simp [saveProgress, loadProgress, hne]

/-- Witness for C8: the spec scenario, saving `["A", "B", "C"]` at cursor 1
over two different prior slots. -/
theorem claim8_witness :
    (["A", "B", "C"] : List String) ≠ [] ∧
      (loadProgress (saveProgress none ["A", "B", "C"] 1 "t").1 =
          some ⟨["A", "B", "C"], 1, "t"⟩
        ∧ (saveProgress none ["A", "B", "C"] 1 "t").1 =
            (saveProgress (some ⟨["Z"], 0, "u"⟩) ["A", "B", "C"] 1 "t").1
        ∧ loadProgress (clearProgress none) = none
        ∧ clearProgress (clearProgress none) = clearProgress none) :=
  ⟨by decide,
    claim8_checkpoint_roundtrip none (some ⟨["Z"], 0, "u"⟩) ["A", "B", "C"] 1 "t"
      (by decide)⟩

/-- A two-key work sequence record store state reached by the counterexample
runs below is irrelevant; what matters is the saved cursor, the processed
indices and the emitted outcome, all of which are decidable. -/
def twoUrls : List String := ["A", "B"]

/-- Counterexample for C3: over the sequence `["A", "B"]`, with the pause
observed at the top of iteration 1 (so index 0 was fully processed), the
checkpoint saves cursor 0 — the index of the **last processed** key, not of
the next key to process (which is 1) — and the resumed run therefore
processes indices 0 and 1, revisiting the already-processed key at
position 0. -/
theorem claim3_counterexample :
    (runScraper scrapeConst false emptyStore twoUrls 0
        (some (1, .pause))).savedCheckpoint = some (twoUrls, 0)
    ∧ (runScraper scrapeConst false emptyStore twoUrls 0
        (some (1, .pause))).processed = [0]
    ∧ (runScraper scrapeConst false
        (runScraper scrapeConst false emptyStore twoUrls 0
          (some (1, .pause))).store
        twoUrls 0 none).processed = [0, 1] := by
  decide

/-- Counterexample for C7: over the sequence `["A", "B"]`, a stop observed
at the top of iteration 1 ends the run with only index 0 processed (the
cursor never reached the end of the two-key sequence), yet the code takes
the non-paused exit path: it deletes any existing checkpoint and emits the
`Completed` outcome `finished 1` — so `Completed` is not emitted exactly
when the cursor reaches the end. -/
theorem claim7_counterexample :
    (runScraper scrapeConst false emptyStore twoUrls 0
        (some (1, .stop))).outcome = .finished 1
    ∧ (runScraper scrapeConst false emptyStore twoUrls 0
        (some (1, .stop))).cleared = true
    ∧ (runScraper scrapeConst false emptyStore twoUrls 0
        (some (1, .stop))).savedCheckpoint = none
    ∧ (runScraper scrapeConst false emptyStore twoUrls 0
        (some (1, .stop))).processed = [0]
    ∧ twoUrls.length = 2 := by
  decide

/-- A stored row satisfying the hex/rgb invariant whose red component is 0:
hex `#00AABB` with rgb (0, 170, 187). -/
def recHexZeroR : FRecord :=
  ⟨fun f => match f with
    | .hex_color => .str "#00AABB"
    | .rgb_r => .int 0 | .rgb_g => .int 170 | .rgb_b => .int 187
    | _ => .vnone, []⟩

/-- A consistent partial update carrying hex `#FFAABB` with
rgb (255, 170, 187). -/
def dataHexFFr : ScrapeData :=
  ⟨fun f => match f with
    | .hex_color => .str "#FFAABB"
    | .rgb_r => .int 255 | .rgb_g => .int 170 | .rgb_b => .int 187
    | _ => .vnone, []⟩

/-- A store holding `recHexZeroR` under the key `A`. -/
def storeHexZeroR : Store := fun k => if k = "A" then some recHexZeroR else none

/-- Counterexample for C6: both the stored record (hex `#00AABB`,
rgb (0, 170, 187)) and the incoming partial record (hex `#FFAABB`,
rgb (255, 170, 187)) satisfy the hex/rgb invariant, but the incremental
merge-upsert violates it: the stored red component 0 counts as
empty/absent/zero and is overwritten with 255, while the stored hex
`#00AABB` is non-empty and retained, leaving a row whose hex no longer
decodes to its rgb triple. -/
theorem claim6_counterexample :
    hexRgbConsistent recHexZeroR.fields = true
    ∧ hexRgbConsistent dataHexFFr.fields = true
    ∧ ((saveFilament storeHexZeroR "A" dataHexFFr false "A").map
        fun r => hexRgbConsistent r.fields) = some false := by
  decide

/-- Counterexample for C9: the stored record has the non-empty name `Red`
and the scraped record the non-empty name `Blue`; the incremental upsert
keeps `Red` in the store, but the `filament_added` notification carries the
scraped dict, whose name is still `Blue` (`save_filament` copies stored
values into the dict only where the scraped value is falsy), so the
notified value differs from the stored value. -/
theorem claim9_counterexample :
    (mergedNotification (storeA "A") dataBlue false).fields .name =
        PyVal.str "Blue"
    ∧ ((saveFilament storeA "A" dataBlue false "A").map
        fun r => r.fields .name) = some (PyVal.str "Red") := by
  decide

/-- Exit count of the all-failing scroll loop: from a state with
`no_change_count + j = 5`, the loop performs exactly `j` more (failing)
polls and returns the urls collected so far. -/
theorem discoverLoop_allfail (polls : Nat → Option (List String))
    (hfail : ∀ t, polls t = none) :
    ∀ (j t0 fuel : Nat) (st : DiscoState), st.noChange + j = 5 → j < fuel →
      discoverLoop polls fuel t0 st = some (st.urls, t0 + j) := by
  intro j
  induction j with
  | zero =>
    intro t0 fuel st h5 hf
    obtain ⟨f, rfl⟩ : ∃ f, fuel = f + 1 := ⟨fuel - 1, by omega⟩
    have h : 5 ≤ st.noChange := by omega
    simp [discoverLoop, if_pos h]
  | succ j ih =>
    intro t0 fuel st h5 hf
    obtain ⟨f, rfl⟩ : ∃ f, fuel = f + 1 := ⟨fuel - 1, by omega⟩
    have hlt : ¬5 ≤ st.noChange := by omega
    simp only [discoverLoop, if_neg hlt]
    rw [hfail t0]
    have step : pollStep st none = { st with noChange := st.noChange + 1 } := rfl
    rw [step]
    have := ih (t0 + 1) f { st with noChange := st.noChange + 1 }
      (by simp; omega) (by omega)
    rw [this]
    have harith : t0 + 1 + j = t0 + (j + 1) := by omega
    rw [harith]

/-- C10: after the initial list-page load, an exception during a poll is
absorbed by the `except` branch and counted as one more no-growth poll
(urls and `last_count` untouched); consequently a source whose every poll
raises makes the discovery loop terminate after exactly 5 consecutive
failing polls, returning the keys collected so far. -/
theorem claim10_poll_errors_absorbed (polls : Nat → Option (List String))
    (t0 fuel : Nat) (st : DiscoState) (hnc : st.noChange = 0)
    (hfail : ∀ t, polls t = none) (hfuel : 5 < fuel) :
    pollStep st none = { st with noChange := st.noChange + 1 }
    ∧ discoverLoop polls fuel t0 st = some (st.urls, t0 + 5) :=
  ⟨rfl, discoverLoop_allfail polls hfail 5 t0 fuel st (by omega) (by omega)⟩

/-- Witness for C10: five failing polls from a mid-run state holding one
collected url return that url after exactly five more polls. -/
theorem claim10_witness :
    (⟨["X"], 1, 0⟩ : DiscoState).noChange = 0 ∧ 5 < 6 ∧
      (pollStep ⟨["X"], 1, 0⟩ none = ⟨["X"], 1, 1⟩
        ∧ discoverLoop (fun _ => none) 6 3 ⟨["X"], 1, 0⟩ = some (["X"], 3 + 5)) :=
  ⟨rfl, by decide,
    claim10_poll_errors_absorbed (fun _ => none) 3 6 ⟨["X"], 1, 0⟩ rfl
      (fun _ => rfl) (by decide)⟩

theorem pollStep_some_urls (st : DiscoState) (links : List String) :
    (pollStep st (some links)).urls = collectLinks st.urls links := by
  by_cases h : (collectLinks st.urls links).length = st.lastCount
  · simp [pollStep, h]
  · simp [pollStep, h]

theorem collectLinks_extend (ls : List String) :
    ∀ acc, ∃ ex, collectLinks acc ls = acc ++ ex := by
  induction ls with
  | nil => exact fun acc => ⟨[], (List.append_nil acc).symm⟩
  | cons u t ih =>
    intro acc
    obtain ⟨ex, hex⟩ := ih (addUrl acc u)
    by_cases hu : u ∈ acc
    · have ha : addUrl acc u = acc := by simp [addUrl, hu]
      refine ⟨ex, ?_⟩
      show collectLinks (addUrl acc u) t = acc ++ ex
      rw [ha] at hex ⊢
      exact hex
    · have ha : addUrl acc u = acc ++ [u] := by simp [addUrl, hu]
      refine ⟨[u] ++ ex, ?_⟩
      show collectLinks (addUrl acc u) t = acc ++ ([u] ++ ex)
      rw [ha] at hex ⊢
      rw [hex, List.append_assoc]

theorem collectLinks_of_length_eq {acc ls : List String}
    (h : (collectLinks acc ls).length = acc.length) : collectLinks acc ls = acc := by
  obtain ⟨ex, hex⟩ := collectLinks_extend ls acc
  rw [hex] at h ⊢
  rw [List.length_append] at h
  have hex0 : ex = [] := List.length_eq_zero.mp (by omega)
  rw [hex0, List.append_nil]

theorem discoState_lastCount (polls : Nat → Option (List String)) :
    ∀ t, (discoStateAt polls t).lastCount = (discoStateAt polls t).urls.length := by
  intro t
  induction t with
  | zero => rfl
  | succ t ih =>
    show (pollStep (discoStateAt polls t) (polls t)).lastCount =
      (pollStep (discoStateAt polls t) (polls t)).urls.length
    cases hp : polls t with
    | none => simpa [pollStep] using ih
    | some links =>
      by_cases hlen : (collectLinks (discoStateAt polls t).urls links).length =
          (discoStateAt polls t).lastCount
      · simp [pollStep, hlen]
      · simp [pollStep, hlen]

theorem nodup_addUrl {acc : List String} (h : acc.Nodup) (u : String) :
    (addUrl acc u).Nodup := by
  unfold addUrl
  by_cases hu : u ∈ acc
  · rwa [if_pos hu]
  · rw [if_neg hu]
    simp [List.nodup_append, h, hu]

theorem nodup_collectLinks :
    ∀ (ls acc : List String), acc.Nodup → (collectLinks acc ls).Nodup := by
  intro ls
  induction ls with
  | nil => exact fun acc h => h
  | cons u t ih => exact fun acc h => ih (addUrl acc u) (nodup_addUrl h u)

theorem nodup_discoState (polls : Nat → Option (List String)) :
    ∀ t, (discoStateAt polls t).urls.Nodup := by
  intro t
  induction t with
  | zero => exact List.nodup_nil
  | succ t ih =>
    show (pollStep (discoStateAt polls t) (polls t)).urls.Nodup
    cases hp : polls t with
    | none => simpa [pollStep] using ih
    | some links =>
      rw [pollStep_some_urls]
      exact nodup_collectLinks links _ ih

theorem mem_addUrl {acc : List String} {u v : String} :
    v ∈ addUrl acc u ↔ v ∈ acc ∨ v = u := by
  unfold addUrl
  by_cases hu : u ∈ acc
  · rw [if_pos hu]
    constructor
    · exact Or.inl
    · rintro (h | rfl)
      · exact h
      · exact hu
  · rw [if_neg hu]
    simp

theorem mem_collectLinks :
    ∀ (ls acc : List String) (v : String),
      v ∈ collectLinks acc ls ↔ v ∈ acc ∨ v ∈ ls := by
  intro ls
  induction ls with
  | nil => intro acc v; simp [collectLinks]
  | cons u t ih =>
    intro acc v
    show v ∈ collectLinks (addUrl acc u) t ↔ _
    rw [ih, mem_addUrl]
    simp [List.mem_cons]
    tauto

theorem mem_discoState (polls : Nat → Option (List String)) :
    ∀ (t : Nat) (v : String),
      v ∈ (discoStateAt polls t).urls ↔
        ∃ i, i < t ∧ ∃ l, polls i = some l ∧ v ∈ l := by
  intro t
  induction t with
  | zero => intro v; simp [discoStateAt]
  | succ t ih =>
    intro v
    show v ∈ (pollStep (discoStateAt polls t) (polls t)).urls ↔ _
    cases hp : polls t with
    | none =>
      simp only [pollStep]
      rw [ih]
      constructor
      · rintro ⟨i, hi, l, hl, hv⟩
        exact ⟨i, by omega, l, hl, hv⟩
      · rintro ⟨i, hi, l, hl, hv⟩
        rcases Nat.lt_succ_iff_lt_or_eq.mp hi with h | rfl
        · exact ⟨i, h, l, hl, hv⟩
        · rw [hp] at hl
          exact absurd hl (by simp)
    | some links =>
      rw [pollStep_some_urls, mem_collectLinks, ih]
      constructor
      · rintro (⟨i, hi, l, hl, hv⟩ | hv)
        · exact ⟨i, by omega, l, hl, hv⟩
        · exact ⟨t, by omega, links, hp, hv⟩
      · rintro ⟨i, hi, l, hl, hv⟩
        rcases Nat.lt_succ_iff_lt_or_eq.mp hi with h | rfl
        · exact Or.inl ⟨i, h, l, hl, hv⟩
        · rw [hp] at hl
          injection hl with h
          subst h
          exact Or.inr hv

theorem discoState_noChange_prod (polls : Nat → Option (List String)) (k : Nat)
    (hsome : ∀ t, t < k → (polls t).isSome = true)
    (hprod : ∀ t, t < k → (discoStateAt polls t).urls.length <
      (discoStateAt polls (t + 1)).urls.length) :
    ∀ t, t ≤ k → (discoStateAt polls t).noChange = 0 := by
  intro t
  induction t with
  | zero => intro _; rfl
  | succ t _ =>
    intro hle
    have htk : t < k := by omega
    obtain ⟨links, hp⟩ := Option.isSome_iff_exists.mp (hsome t htk)
    have hgrow := hprod t htk
    show (pollStep (discoStateAt polls t) (polls t)).noChange = 0
    rw [hp]
    have hurls : (discoStateAt polls (t + 1)).urls =
        collectLinks (discoStateAt polls t).urls links := by
      show (pollStep (discoStateAt polls t) (polls t)).urls = _
      rw [hp, pollStep_some_urls]
    have hne : ¬(collectLinks (discoStateAt polls t).urls links).length =
        (discoStateAt polls t).lastCount := by
      rw [discoState_lastCount]
      rw [hurls] at hgrow
      omega
    simp [pollStep, hne]

theorem discoState_silent (polls : Nat → Option (List String)) (k : Nat)
    (hsome : ∀ t, k ≤ t → t < k + 5 → (polls t).isSome = true)
    (hsilent : ∀ t, k ≤ t → t < k + 5 → (discoStateAt polls (t + 1)).urls.length =
      (discoStateAt polls t).urls.length)
    (hnck : (discoStateAt polls k).noChange = 0) :
    ∀ j, j ≤ 5 → (discoStateAt polls (k + j)).noChange = j ∧
      (discoStateAt polls (k + j)).urls = (discoStateAt polls k).urls := by
  intro j
  induction j with
  | zero => exact fun _ => ⟨hnck, rfl⟩
  | succ j ih =>
    intro hle
    obtain ⟨ihn, ihu⟩ := ih (by omega)
    have hkt : k ≤ k + j := by omega
    have hlt : k + j < k + 5 := by omega
    obtain ⟨links, hp⟩ := Option.isSome_iff_exists.mp (hsome _ hkt hlt)
    have hsil := hsilent _ hkt hlt
    have hurls1 : (discoStateAt polls (k + j + 1)).urls =
        collectLinks (discoStateAt polls (k + j)).urls links := by
      show (pollStep (discoStateAt polls (k + j)) (polls (k + j))).urls = _
      rw [hp, pollStep_some_urls]
    have hlensame : (collectLinks (discoStateAt polls (k + j)).urls links).length =
        (discoStateAt polls (k + j)).urls.length := by
      rw [← hurls1]
      exact hsil
    have hcond : (collectLinks (discoStateAt polls (k + j)).urls links).length =
        (discoStateAt polls (k + j)).lastCount := by
      rw [discoState_lastCount]
      exact hlensame
    constructor
    · show (pollStep (discoStateAt polls (k + j)) (polls (k + j))).noChange = j + 1
      rw [hp]
      simp [pollStep, hcond, ihn]
    · show (pollStep (discoStateAt polls (k + j)) (polls (k + j))).urls = _
      rw [hp, pollStep_some_urls, collectLinks_of_length_eq hlensame, ihu]

theorem discoverLoop_reaches (polls : Nat → Option (List String)) :
    ∀ (n t fuel : Nat), n < fuel →
      (∀ i, i < n → (discoStateAt polls (t + i)).noChange < 5) →
      5 ≤ (discoStateAt polls (t + n)).noChange →
      discoverLoop polls fuel t (discoStateAt polls t) =
        some ((discoStateAt polls (t + n)).urls, t + n) := by
  intro n
  induction n with
  | zero =>
    intro t fuel hf _ hstop
    obtain ⟨f, rfl⟩ : ∃ f, fuel = f + 1 := ⟨fuel - 1, by omega⟩
    rw [Nat.add_zero] at hstop ⊢
    simp [discoverLoop, if_pos hstop]
  | succ n ih =>
    intro t fuel hf hlo hstop
    obtain ⟨f, rfl⟩ : ∃ f, fuel = f + 1 := ⟨fuel - 1, by omega⟩
    have h0 : (discoStateAt polls t).noChange < 5 := by
      have := hlo 0 (by omega)
      rwa [Nat.add_zero] at this
    have h0' : ¬5 ≤ (discoStateAt polls t).noChange := by omega
    simp only [discoverLoop, if_neg h0']
    have hnext : pollStep (discoStateAt polls t) (polls t) =
        discoStateAt polls (t + 1) := rfl
    rw [hnext]
    have hrec := ih (t + 1) f (by omega)
      (fun i hi => by
        have := hlo (i + 1) (by omega)
        rwa [show t + (i + 1) = t + 1 + i by omega] at this)
      (by rwa [show t + 1 + n = t + (n + 1) by omega])
    rw [hrec, show t + 1 + n = t + (n + 1) by omega]

/-- Convergence of the scroll loop: for a source whose polls all succeed
and which grows the url collection on each of its first `k` polls and
yields nothing new on the following ones, the loop terminates after
exactly `k + 5` polls (the 5-strikes rule, the counter resetting to 0 on
every growth), and the accumulated collection is duplicate-free and holds
exactly the keys the polls yielded. -/
theorem discoverLoop_convergence (polls : Nat → Option (List String))
    (k fuel : Nat) (hfuel : k + 5 < fuel)
    (hsome : ∀ t, t < k + 5 → (polls t).isSome = true)
    (hprod : ∀ t, t < k → (discoStateAt polls t).urls.length <
      (discoStateAt polls (t + 1)).urls.length)
    (hsilent : ∀ t, k ≤ t → t < k + 5 → (discoStateAt polls (t + 1)).urls.length =
      (discoStateAt polls t).urls.length) :
    getFilamentList polls fuel = some ((discoStateAt polls k).urls, k + 5)
    ∧ (discoStateAt polls k).urls.Nodup
    ∧ ∀ u, u ∈ (discoStateAt polls k).urls ↔
        ∃ t, t < k + 5 ∧ ∃ l, polls t = some l ∧ u ∈ l := by
  have hnck : (discoStateAt polls k).noChange = 0 :=
    discoState_noChange_prod polls k
      (fun t ht => hsome t (by omega)) hprod k (le_refl k)
  have hsil := discoState_silent polls k
    (fun t h1 h2 => hsome t (by omega)) hsilent hnck
  have hlo : ∀ i, i < k + 5 → (discoStateAt polls i).noChange < 5 := by
    intro i hi
    by_cases hik : i ≤ k
    · rw [discoState_noChange_prod polls k (fun t ht => hsome t (by omega)) hprod i hik]
      omega
    · have hj : i = k + (i - k) := by omega
      rw [hj, (hsil (i - k) (by omega)).1]
      omega
  have hstop : 5 ≤ (discoStateAt polls (k + 5)).noChange := by
    rw [(hsil 5 (le_refl 5)).1]
  have hloop := discoverLoop_reaches polls (k + 5) 0 fuel (by omega)
    (fun i hi => by
      have := hlo i hi
      rwa [Nat.zero_add]) (by rwa [Nat.zero_add])
  rw [Nat.zero_add] at hloop
  have hurls : (discoStateAt polls (k + 5)).urls = (discoStateAt polls k).urls :=
    (hsil 5 (le_refl 5)).2
  refine ⟨?_, nodup_discoState polls k, ?_⟩
  · show discoverLoop polls fuel 0 ⟨[], 0, 0⟩ = _
    have h0 : (⟨[], 0, 0⟩ : DiscoState) = discoStateAt polls 0 := rfl
    rw [h0, hloop, hurls]
  · intro u
    rw [← hurls]
    exact mem_discoState polls (k + 5) u

/-- A synthetic source whose first poll yields the keys `A` then `B` and
whose later polls succeed but yield nothing. -/
def pollsC : Nat → Option (List String) :=
  fun t => if t = 0 then some ["A", "B"] else some []

/-- Counterexample for C5: the program converts the discovery set with
`list(urls)`, whose iteration order over a CPython string set is
unspecified (hash-seed dependent), not insertion order.  Under the
admissible enumeration that happens to reverse the insertion-ordered
contents, a source yielding `A` then `B` makes discovery return
`["B", "A"]` — a permutation of the accumulated keys that is not the
insertion order `["A", "B"]` — so the claim's insertion-order clause fails
on this run. -/
theorem claim5_counterexample :
    (discoStateAt pollsC 1).urls = ["A", "B"]
    ∧ getFilamentListRun List.reverse pollsC 7 = some (["B", "A"], 1 + 5)
    ∧ (["B", "A"] : List String).Perm ["A", "B"]
    ∧ (["B", "A"] : List String) ≠ ["A", "B"] := by
  decide

/-- C5 as amended: for every admissible set-enumeration order (any
function returning a permutation of the collection's contents) and every
source with `k` productive polls followed by no-growth polls,
`get_filament_list` terminates after exactly `k + 5` polls (the 5-strikes
rule, the counter resetting to 0 on every growth) and returns exactly the
accumulated keys — a duplicate-free sequence containing precisely the keys
the polls yielded — in the unspecified iteration order of the set, not
necessarily insertion order. -/
theorem claim5_amended_convergence (enum : List String → List String)
    (polls : Nat → Option (List String)) (k fuel : Nat)
    (henum : ∀ l : List String, (enum l).Perm l)
    (hfuel : k + 5 < fuel)
    (hsome : ∀ t, t < k + 5 → (polls t).isSome = true)
    (hprod : ∀ t, t < k → (discoStateAt polls t).urls.length <
      (discoStateAt polls (t + 1)).urls.length)
    (hsilent : ∀ t, k ≤ t → t < k + 5 → (discoStateAt polls (t + 1)).urls.length =
      (discoStateAt polls t).urls.length) :
    getFilamentListRun enum polls fuel =
        some (enum (discoStateAt polls k).urls, k + 5)
    ∧ (enum (discoStateAt polls k).urls).Perm (discoStateAt polls k).urls
    ∧ (enum (discoStateAt polls k).urls).Nodup
    ∧ ∀ u, u ∈ enum (discoStateAt polls k).urls ↔
        ∃ t, t < k + 5 ∧ ∃ l, polls t = some l ∧ u ∈ l := by
  obtain ⟨hgfl, hnodup, hmem⟩ :=
    discoverLoop_convergence polls k fuel hfuel hsome hprod hsilent
  have hperm := henum (discoStateAt polls k).urls
  refine ⟨?_, hperm, hperm.nodup_iff.mpr hnodup, ?_⟩
  · unfold getFilamentListRun
    rw [hgfl]
  · intro u
    rw [hperm.mem_iff]
    exact hmem u

/-- A synthetic source for the C5 witness: the first poll yields the single
key `A`, every later poll succeeds but yields nothing. -/
def pollsW : Nat → Option (List String) :=
  fun t => if t = 0 then some ["A"] else some []

/-- Witness for C5 as amended: with one productive poll (`k = 1`) and the
reversing enumeration, discovery stops after exactly 6 polls and returns a
permutation of the accumulated keys `["A"]`. -/
theorem claim5_amended_witness :
    (1 + 5 < 7 ∧ ∀ t, t < 1 + 5 → (pollsW t).isSome = true) ∧
      (getFilamentListRun List.reverse pollsW 7 =
          some (List.reverse (discoStateAt pollsW 1).urls, 1 + 5)
        ∧ (List.reverse (discoStateAt pollsW 1).urls).Perm
            (discoStateAt pollsW 1).urls
        ∧ (List.reverse (discoStateAt pollsW 1).urls).Nodup
        ∧ ∀ u, u ∈ List.reverse (discoStateAt pollsW 1).urls ↔
            ∃ t, t < 1 + 5 ∧ ∃ l, pollsW t = some l ∧ u ∈ l) :=
  ⟨⟨by decide, by decide⟩,
    claim5_amended_convergence List.reverse pollsW 1 7
      (fun l => List.reverse_perm l) (by decide) (by decide) (by decide)
      (by decide)⟩

theorem incMergeField_self (v : PyVal) : incMergeField v v = v := by
  apply incMergeField_eq_old
  rw [isEmptyVal_eq_not_truthy]
  cases truthy v <;> simp

theorem incMergeField_idem (o n : PyVal) :
    incMergeField (incMergeField o n) n = incMergeField o n := by
  by_cases hc : (isEmptyVal o && truthy n) = true
  · rw [incMergeField_eq_new hc]
    exact incMergeField_self n
  · rw [incMergeField_eq_old hc, incMergeField_eq_old hc]

theorem incMergeRec_idem (r : FRecord) (d : ScrapeData) :
    incMergeRec (incMergeRec r d) d = incMergeRec r d := by
  unfold incMergeRec
  congr 1
  funext f
  exact incMergeField_idem (r.fields f) (d.fields f)

theorem incMergeRec_insert (d : ScrapeData) :
    incMergeRec (insertRec d) d = insertRec d := by
  unfold incMergeRec insertRec
  congr 1
  funext f
  show incMergeField (insertFields d f) (d.fields f) = insertFields d f
  unfold insertFields
  by_cases hf : isFlagField f = true
  · rw [if_pos hf]
    cases hv : d.fields f with
    | vnone =>
      apply incMergeField_eq_old
      simp [truthy]
    | str s => exact incMergeField_self _
    | int n => exact incMergeField_self _
  · rw [if_neg hf]
    exact incMergeField_self _

theorem upsertStep_idem (scrape : String → Option ScrapeData) (fu : Bool)
    (u : String) (r? : Option FRecord) :
    upsertStep scrape fu u (upsertStep scrape fu u r?) = upsertStep scrape fu u r? := by
  by_cases h1 : (!fu && entryComplete r?) = true
  · have hA : upsertStep scrape fu u r? = r? := by
      unfold upsertStep
      rw [if_pos h1]
    rw [hA, hA]
  · have hA : upsertStep scrape fu u r? =
        match scrape u with
        | none => r?
        | some d => some (saveRec r? d fu) := by
      unfold upsertStep
      rw [if_neg h1]
    cases hs : scrape u with
    | none =>
      have hA' : upsertStep scrape fu u r? = r? := by rw [hA, hs]
      rw [hA']
      exact hA'
    | some d =>
      have hA' : upsertStep scrape fu u r? = some (saveRec r? d fu) := by rw [hA, hs]
      rw [hA']
      unfold upsertStep
      by_cases h2 : (!fu && entryComplete (some (saveRec r? d fu))) = true
      · rw [if_pos h2]
      · rw [if_neg h2, hs]
        show some (saveRec (some (saveRec r? d fu)) d fu) = some (saveRec r? d fu)
        congr 1
        cases fu with
        | true =>
          show fullMergeRec (saveRec r? d true) d = saveRec r? d true
          cases r? with
          | none => rfl
          | some r => rfl
        | false =>
          show incMergeRec (saveRec r? d false) d = saveRec r? d false
          cases r? with
          | none => exact incMergeRec_insert d
          | some r => exact incMergeRec_idem r d

theorem stepStore_apply (scrape : String → Option ScrapeData) (fu : Bool)
    (s : Store) (u k : String) :
    stepStore scrape fu s u k = if k = u then upsertStep scrape fu u (s u) else s k :=
  rfl

theorem foldl_stepStore_apply (scrape : String → Option ScrapeData) (fu : Bool) :
    ∀ (L : List String) (s : Store) (k : String),
      (L.foldl (stepStore scrape fu) s) k =
        if k ∈ L then upsertStep scrape fu k (s k) else s k := by
  intro L
  induction L with
  | nil => intro s k; simp
  | cons u rest ih =>
    intro s k
    show (rest.foldl (stepStore scrape fu) (stepStore scrape fu s u)) k = _
    rw [ih]
    by_cases hk : k ∈ rest
    · rw [if_pos hk, if_pos (List.mem_cons.mpr (Or.inr hk))]
      rw [stepStore_apply]
      by_cases hku : k = u
      · subst hku
        rw [if_pos rfl]
        exact upsertStep_idem scrape fu k (s k)
      · rw [if_neg hku]
    · rw [if_neg hk, stepStore_apply]
      by_cases hku : k = u
      · subst hku
        rw [if_pos rfl, if_pos (List.mem_cons.mpr (Or.inl rfl))]
      · rw [if_neg hku, if_neg (by simp [List.mem_cons, hku, hk])]

theorem visitIndex_store (scrape : String → Option ScrapeData) (fu : Bool)
    (st : LoopState) (i : Nat) (url : String) :
    (visitIndex scrape fu st i url).store = stepStore scrape fu st.store url := by
  funext k
  by_cases hk : k = url
  · subst hk
    by_cases h1 : (!fu && entryComplete (st.store k)) = true
    · simp [visitIndex, stepStore, upsertStep, isEntryComplete, h1]
    · cases hs : scrape k with
      | none => simp [visitIndex, stepStore, upsertStep, isEntryComplete, h1, hs]
      | some d =>
        simp [visitIndex, stepStore, upsertStep, isEntryComplete, h1, hs, saveFilament]
  · by_cases h1 : (!fu && entryComplete (st.store url)) = true
    · simp [visitIndex, stepStore, upsertStep, isEntryComplete, h1, hk]
    · cases hs : scrape url with
      | none => simp [visitIndex, stepStore, upsertStep, isEntryComplete, h1, hs, hk]
      | some d =>
        simp [visitIndex, stepStore, upsertStep, isEntryComplete, h1, hs, hk, saveFilament]

theorem crawlLoop_nohalt_store (scrape : String → Option ScrapeData) (fu : Bool)
    (urls : List String) :
    ∀ (idxs : List Nat) (st : LoopState),
      (crawlLoop scrape fu urls (fun _ => false) idxs st).store =
        (idxs.map fun i => urls.getD i "").foldl (stepStore scrape fu) st.store := by
  intro idxs
  induction idxs with
  | nil => intro st; rfl
  | cons i rest ih =>
    intro st
    have hstep : crawlLoop scrape fu urls (fun _ => false) (i :: rest) st =
        crawlLoop scrape fu urls (fun _ => false) rest
          (visitIndex scrape fu st i (urls.getD i "")) := rfl
    rw [hstep, ih, visitIndex_store]
    rfl

theorem map_getD_range' (l : List String) :
    ∀ (n a : Nat), a + n ≤ l.length →
      (List.range' a n).map (fun i => l.getD i "") = (l.drop a).take n := by
  intro n
  induction n with
  | zero => intro a _; simp
  | succ n ih =>
    intro a ha
    have ha' : a < l.length := by omega
    have hr : List.range' a (n + 1) = a :: List.range' (a + 1) n := rfl
    rw [hr, List.map_cons, ih (a + 1) (by omega),
      List.drop_eq_getElem_cons ha', List.take_succ_cons]
    congr 1
    exact List.getD_eq_getElem l "" ha'

theorem runScraper_none_store (scrape : String → Option ScrapeData) (fu : Bool)
    (s0 : Store) (urls : List String) :
    (runScraper scrape fu s0 urls 0 none).store = urls.foldl (stepStore scrape fu) s0 := by
  show (crawlLoop scrape fu urls (haltOf none) (List.range' 0 (urls.length - 0))
    { store := s0, count := 0, skipped := 0, currentIndex := 0, processed := [] }).store = _
  have hh : haltOf none = fun _ => false := rfl
  rw [hh, crawlLoop_nohalt_store]
  have hmap : (List.range' 0 (urls.length - 0)).map (fun i => urls.getD i "") = urls := by
    rw [Nat.sub_zero, map_getD_range' urls urls.length 0 (by omega)]
    simp
  rw [hmap]

/-- C4: running the crawl in incremental mode twice, over the same key
sequence with an unchanged (deterministic) remote source, leaves the
record store exactly as after one run: complete records are skipped, a
failed scrape is a no-op, and re-merging the same scraped data into the
row it produced changes nothing — so there is no field churn, and since
rows are keyed by their unique url no duplicate record can appear. -/
theorem claim4_idempotent_rerun (scrape : String → Option ScrapeData)
    (s0 : Store) (urls : List String) :
    (runScraper scrape false ((runScraper scrape false s0 urls 0 none).store)
        urls 0 none).store
      = (runScraper scrape false s0 urls 0 none).store := by
  rw [runScraper_none_store, runScraper_none_store]
  funext k
  rw [foldl_stepStore_apply, foldl_stepStore_apply]
  by_cases hk : k ∈ urls
  · rw [if_pos hk, if_pos hk]
    exact upsertStep_idem scrape false k _
  · rw [if_neg hk, if_neg hk]

theorem insertFields_eq_of_provided {d : ScrapeData} {f : FieldName}
    (h : d.fields f ≠ PyVal.vnone) : insertFields d f = d.fields f := by
  unfold insertFields
  by_cases hf : isFlagField f = true
  · rw [if_pos hf]
    cases hv : d.fields f with
    | vnone => exact absurd hv h
    | str s => rfl
    | int n => rfl
  · rw [if_neg hf]

/-- C9 as amended: the `filament_added` notification carries the scraped
dict after `save_filament` copied into it each stored truthy value whose
scraped counterpart is falsy.  Hence the notified value equals the
post-merge stored value for every provided field in full-refresh mode, and
in incremental mode for every field where exactly one of the stored and
scraped values is non-empty; but a field that is non-empty in both carries
the scraped value in the notification while the store retains the stored
value. -/
theorem claim9_amended_notification (r : FRecord) (d : ScrapeData) (f : FieldName) :
    (d.fields f ≠ PyVal.vnone →
      (mergedNotification (some r) d true).fields f = (fullMergeRec r d).fields f)
    ∧ (truthy (r.fields f) ≠ truthy (d.fields f) →
      (mergedNotification (some r) d false).fields f = (incMergeRec r d).fields f)
    ∧ (truthy (r.fields f) = true → truthy (d.fields f) = true →
      (mergedNotification (some r) d false).fields f = d.fields f ∧
        (incMergeRec r d).fields f = r.fields f) := by
  refine ⟨?_, ?_, ?_⟩
  · intro hprov
    show d.fields f = insertFields d f
    exact (insertFields_eq_of_provided hprov).symm
  · intro hne
    show (if truthy (r.fields f) && !truthy (d.fields f) then r.fields f
        else d.fields f) = incMergeField (r.fields f) (d.fields f)
    cases ht : truthy (r.fields f) with
    | true =>
      have hd : truthy (d.fields f) = false := by
        cases hd' : truthy (d.fields f)
        · rfl
        · rw [ht, hd'] at hne
          exact absurd rfl hne
      rw [hd]
      show r.fields f = incMergeField (r.fields f) (d.fields f)
      symm
      apply incMergeField_eq_old
      rw [isEmptyVal_eq_not_truthy, ht]
      simp
    | false =>
      have hd : truthy (d.fields f) = true := by
        cases hd' : truthy (d.fields f)
        · rw [ht, hd'] at hne
          exact absurd rfl hne
        · rfl
      show d.fields f = incMergeField (r.fields f) (d.fields f)
      symm
      apply incMergeField_eq_new
      rw [isEmptyVal_eq_not_truthy, ht, hd]
      rfl
  · intro ht hd
    constructor
    · show (if truthy (r.fields f) && !truthy (d.fields f) then r.fields f
        else d.fields f) = d.fields f
      rw [ht, hd]
      rfl
    · show incMergeField (r.fields f) (d.fields f) = r.fields f
      apply incMergeField_eq_old
      rw [isEmptyVal_eq_not_truthy, ht]
      simp

/-- Witness for C9 as amended: with the stored name `Red` and a scraped
record providing no name, the notification and the store agree on the
field (both keep `Red`). -/
theorem claim9_witness :
    truthy (recRedX.fields .name) ≠ truthy (emptyScrape.fields .name) ∧
      (mergedNotification (some recRedX) emptyScrape false).fields .name =
        (incMergeRec recRedX emptyScrape).fields .name :=
  ⟨by decide,
    (claim9_amended_notification recRedX emptyScrape .name).2.1 (by decide)⟩


theorem hexPairVal_hash (b : Char) : hexPairVal '#' b = none := by
  unfold hexPairVal
  have h : hexDigitVal '#' = none := by decide
  rw [h]
  rfl

theorem parseSixHex_hash (rest : List Char) : parseSixHex ('#' :: rest) = none := by
  rcases rest with _ | ⟨b, _ | ⟨c, _ | ⟨d, _ | ⟨e, _ | ⟨f, t⟩⟩⟩⟩⟩
  · rfl
  · rfl
  · rfl
  · rfl
  · rfl
  · cases t with
    | nil => simp [parseSixHex, hexPairVal_hash]
    | cons g t' => rfl

/-- C6 as amended: inserting a fresh record and the full-refresh overwrite
both preserve the hex/rgb invariant whenever the incoming partial record
satisfies it (the hex and rgb fields travel together), and the extractor's
hex-to-rgb conversion computes exactly the decode of a canonical
`'#'`-plus-six-digit hex string, so extractor output satisfies the
invariant; the incremental merge, however, does not preserve it (see the
counterexample): its per-field rule can overwrite a stored rgb component
equal to 0 while retaining the stored non-empty hex. -/
theorem claim6_amended_invariant :
    (∀ d : ScrapeData, hexRgbConsistent d.fields = true →
      hexRgbConsistent (insertRec d).fields = true)
    ∧ (∀ (r : FRecord) (d : ScrapeData), hexRgbConsistent d.fields = true →
      hexRgbConsistent (fullMergeRec r d).fields = true)
    ∧ (∀ (s : String) (cs : List Char), s.toList = '#' :: cs → cs.length = 6 →
      hexToRgbData s = decodeHexColor s) := by
  refine ⟨fun d h => h, fun r d h => h, ?_⟩
  intro s cs hs hlen
  unfold hexToRgbData decodeHexColor
  rw [hs]
  show (if ((('#' :: cs).dropWhile (· == '#')).length = 6) then
      parseSixHex (('#' :: cs).dropWhile (· == '#')) else none) = parseSixHex cs
  rw [List.dropWhile_cons_of_pos (by simp)]
  by_cases hcs : cs.dropWhile (· == '#') = cs
  · rw [hcs, if_pos hlen]
  · have hhash : ∃ rest, cs = '#' :: rest := by
      cases cs with
      | nil => exact absurd rfl hcs
      | cons x rest =>
        by_cases hx : (x == '#') = true
        · exact ⟨rest, by rw [eq_of_beq hx]⟩
        · exact absurd
            (List.dropWhile_cons_of_neg (p := fun c => c == '#') hx) hcs
    obtain ⟨rest, rfl⟩ := hhash
    rw [List.dropWhile_cons_of_pos (by simp)]
    have hlen5 : (rest.dropWhile (· == '#')).length ≤ 5 := by
      have h1 := (List.dropWhile_suffix (l := rest) (· == '#')).length_le
      have h2 : rest.length = 5 := by
        simp only [List.length_cons] at hlen
        omega
      omega
    rw [if_neg (by omega), parseSixHex_hash]

/-- Witness for C6 as amended: inserting the consistent scraped record
with hex `#FFAABB` and rgb (255, 170, 187) yields a consistent row. -/
theorem claim6_witness :
    hexRgbConsistent dataHexFFr.fields = true ∧
      hexRgbConsistent (insertRec dataHexFFr).fields = true :=
  ⟨by decide, claim6_amended_invariant.1 dataHexFFr (by decide)⟩

theorem crawlLoop_halt_head (scrape : String → Option ScrapeData) (fu : Bool)
    (urls : List String) (halt : Nat → Bool) (i : Nat) (rest : List Nat)
    (st : LoopState) (h : halt i = true) :
    crawlLoop scrape fu urls halt (i :: rest) st = st := by
  simp [crawlLoop, h]

theorem crawlLoop_congr_nohalt (scrape : String → Option ScrapeData) (fu : Bool)
    (urls : List String) (halt : Nat → Bool) :
    ∀ (idxs : List Nat) (st : LoopState), (∀ i ∈ idxs, halt i = false) →
      crawlLoop scrape fu urls halt idxs st =
        crawlLoop scrape fu urls (fun _ => false) idxs st := by
  intro idxs
  induction idxs with
  | nil => intro st _; rfl
  | cons i rest ih =>
    intro st hf
    have hi : halt i = false := hf i (List.mem_cons_self i rest)
    simp only [crawlLoop, hi, Bool.false_eq_true, if_false]
    exact ih _ fun j hj => hf j (List.mem_cons_of_mem i hj)

theorem crawlLoop_append_of_nohalt (scrape : String → Option ScrapeData)
    (fu : Bool) (urls : List String) (halt : Nat → Bool) :
    ∀ (l1 l2 : List Nat) (st : LoopState), (∀ i ∈ l1, halt i = false) →
      crawlLoop scrape fu urls halt (l1 ++ l2) st =
        crawlLoop scrape fu urls halt l2 (crawlLoop scrape fu urls halt l1 st) := by
  intro l1
  induction l1 with
  | nil => intro l2 st _; rfl
  | cons i rest ih =>
    intro l2 st hf
    have hi : halt i = false := hf i (List.mem_cons_self i rest)
    simp only [List.cons_append, crawlLoop, hi, Bool.false_eq_true, if_false]
    exact ih l2 _ fun j hj => hf j (List.mem_cons_of_mem i hj)

theorem visitIndex_processed (scrape : String → Option ScrapeData) (fu : Bool)
    (st : LoopState) (i : Nat) (url : String) :
    (visitIndex scrape fu st i url).processed = st.processed ++ [i] := by
  unfold visitIndex
  by_cases h1 : (!fu && isEntryComplete st.store url) = true
  · rw [if_pos h1]
  · rw [if_neg h1]
    cases scrape url <;> rfl

theorem visitIndex_currentIndex (scrape : String → Option ScrapeData) (fu : Bool)
    (st : LoopState) (i : Nat) (url : String) :
    (visitIndex scrape fu st i url).currentIndex = i := by
  unfold visitIndex
  by_cases h1 : (!fu && isEntryComplete st.store url) = true
  · rw [if_pos h1]
  · rw [if_neg h1]
    cases scrape url <;> rfl

theorem crawlLoop_nohalt_processed (scrape : String → Option ScrapeData)
    (fu : Bool) (urls : List String) :
    ∀ (idxs : List Nat) (st : LoopState),
      (crawlLoop scrape fu urls (fun _ => false) idxs st).processed =
        st.processed ++ idxs := by
  intro idxs
  induction idxs with
  | nil => intro st; exact (List.append_nil _).symm
  | cons i rest ih =>
    intro st
    have hstep : crawlLoop scrape fu urls (fun _ => false) (i :: rest) st =
        crawlLoop scrape fu urls (fun _ => false) rest
          (visitIndex scrape fu st i (urls.getD i "")) := rfl
    rw [hstep, ih, visitIndex_processed, List.append_assoc]
    rfl

theorem crawlLoop_nohalt_currentIndex (scrape : String → Option ScrapeData)
    (fu : Bool) (urls : List String) :
    ∀ (idxs : List Nat) (st : LoopState),
      (crawlLoop scrape fu urls (fun _ => false) idxs st).currentIndex =
        idxs.getLast?.getD st.currentIndex := by
  intro idxs
  induction idxs with
  | nil => intro st; rfl
  | cons i rest ih =>
    intro st
    have hstep : crawlLoop scrape fu urls (fun _ => false) (i :: rest) st =
        crawlLoop scrape fu urls (fun _ => false) rest
          (visitIndex scrape fu st i (urls.getD i "")) := rfl
    rw [hstep, ih, visitIndex_currentIndex]
    cases rest with
    | nil => rfl
    | cons j t =>
      rw [List.getLast?_cons_cons]
      cases h : (j :: t).getLast? with
      | none =>
        have hs : (j :: t).getLast?.isSome := List.getLast?_isSome.mpr (by simp)
        rw [h] at hs
        exact absurd hs (by simp)
      | some x => rfl

theorem stepStore_idem (scrape : String → Option ScrapeData) (fu : Bool)
    (B : Store) (u : String) :
    stepStore scrape fu (stepStore scrape fu B u) u = stepStore scrape fu B u := by
  funext k
  by_cases hk : k = u
  · subst hk
    show (if k = k then upsertStep scrape fu k (stepStore scrape fu B k k)
        else stepStore scrape fu B k k) = stepStore scrape fu B k k
    rw [if_pos rfl]
    show upsertStep scrape fu k
        (if k = k then upsertStep scrape fu k (B k) else B k) =
      if k = k then upsertStep scrape fu k (B k) else B k
    rw [if_pos rfl]
    exact upsertStep_idem scrape fu k (B k)
  · show (if k = u then upsertStep scrape fu u (stepStore scrape fu B u u)
        else stepStore scrape fu B u k) = stepStore scrape fu B u k
    rw [if_neg hk]

theorem range'_zero_concat (p : Nat) (h0 : 0 < p) :
    List.range' 0 p = List.range' 0 (p - 1) ++ [p - 1] := by
  have h1 := List.range'_append 0 (p - 1) 1 1
  rw [show 0 + 1 * (p - 1) = p - 1 by omega, show 1 + (p - 1) = p by omega] at h1
  have h2 : List.range' (p - 1) 1 = [p - 1] := rfl
  rw [h2] at h1
  exact h1.symm

theorem runScraper_pause_parts (scrape : String → Option ScrapeData) (fu : Bool)
    (s0 : Store) (urls : List String) (p : Nat) (h0 : 0 < p)
    (hlt : p < urls.length) :
    (runScraper scrape fu s0 urls 0 (some (p, .pause))).savedCheckpoint =
        some (urls, p - 1)
    ∧ (runScraper scrape fu s0 urls 0 (some (p, .pause))).processed =
        List.range' 0 p
    ∧ (runScraper scrape fu s0 urls 0 (some (p, .pause))).store =
        (urls.take p).foldl (stepStore scrape fu) s0 := by
  have hnf : ∀ i ∈ List.range' 0 p, haltOf (some (p, Req.pause)) i = false := by
    intro i hi
    have hip : i < p := by
      have := List.mem_range'_1.mp hi
      omega
    exact decide_eq_false (by omega)
  have hsplit : List.range' 0 (urls.length - 0) =
      List.range' 0 p ++ List.range' p (urls.length - p) := by
    have h := List.range'_append 0 p (urls.length - p) 1
    rw [show 0 + 1 * p = p by omega,
      show urls.length - p + p = urls.length by omega] at h
    exact h.symm
  have hfirst : crawlLoop scrape fu urls (haltOf (some (p, Req.pause)))
      (List.range' 0 (urls.length - 0)) ⟨s0, 0, 0, 0, []⟩ =
      crawlLoop scrape fu urls (fun _ => false) (List.range' 0 p)
        ⟨s0, 0, 0, 0, []⟩ := by
    rw [hsplit, crawlLoop_append_of_nohalt scrape fu urls _ _ _ _ hnf]
    have hlp : List.range' p (urls.length - p) =
        p :: List.range' (p + 1) (urls.length - p - 1) := by
      rw [show urls.length - p = (urls.length - p - 1) + 1 by omega]
      rfl
    rw [hlp, crawlLoop_halt_head scrape fu urls _ _ _ _
      (decide_eq_true (le_refl p))]
    exact crawlLoop_congr_nohalt scrape fu urls _ _ _ hnf
  have hni : urls.isEmpty = false := by
    cases urls with
    | nil => simp at hlt
    | cons a t => rfl
  refine ⟨?_, ?_, ?_⟩
  · show (if urls.isEmpty then none
      else some (urls, (crawlLoop scrape fu urls (haltOf (some (p, Req.pause)))
        (List.range' 0 (urls.length - 0)) ⟨s0, 0, 0, 0, []⟩).currentIndex)) =
      some (urls, p - 1)
    rw [hni, hfirst, crawlLoop_nohalt_currentIndex,
      range'_zero_concat p h0, List.getLast?_concat]
    rfl
  · show (crawlLoop scrape fu urls (haltOf (some (p, Req.pause)))
        (List.range' 0 (urls.length - 0)) ⟨s0, 0, 0, 0, []⟩).processed =
      List.range' 0 p
    rw [hfirst, crawlLoop_nohalt_processed]
    exact List.nil_append _
  · show (crawlLoop scrape fu urls (haltOf (some (p, Req.pause)))
        (List.range' 0 (urls.length - 0)) ⟨s0, 0, 0, 0, []⟩).store =
      (urls.take p).foldl (stepStore scrape fu) s0
    rw [hfirst, crawlLoop_nohalt_store, map_getD_range' urls p 0 (by omega),
      List.drop_zero]

theorem runScraper_start_parts (scrape : String → Option ScrapeData) (fu : Bool)
    (s0 : Store) (urls : List String) (a : Nat) (ha : a ≤ urls.length) :
    (runScraper scrape fu s0 urls a none).store =
        (urls.drop a).foldl (stepStore scrape fu) s0
    ∧ (runScraper scrape fu s0 urls a none).processed =
        List.range' a (urls.length - a) := by
  constructor
  · show (crawlLoop scrape fu urls (fun _ => false)
        (List.range' a (urls.length - a)) ⟨s0, 0, 0, 0, []⟩).store = _
    rw [crawlLoop_nohalt_store, map_getD_range' urls (urls.length - a) a (by omega)]
    have hl : urls.length - a = (urls.drop a).length := (List.length_drop a urls).symm
    rw [hl, List.take_length]
  · show (crawlLoop scrape fu urls (fun _ => false)
        (List.range' a (urls.length - a)) ⟨s0, 0, 0, 0, []⟩).processed = _
    rw [crawlLoop_nohalt_processed]
    exact List.nil_append _

theorem foldl_take_drop_idem (scrape : String → Option ScrapeData) (fu : Bool)
    (s0 : Store) (urls : List String) (p : Nat) (h0 : 0 < p)
    (hlt : p < urls.length) :
    (urls.drop (p - 1)).foldl (stepStore scrape fu)
        ((urls.take p).foldl (stepStore scrape fu) s0) =
      urls.foldl (stepStore scrape fu) s0 := by
  have hp1 : p - 1 < urls.length := by omega
  have hu : urls.drop (p - 1) = urls[p - 1] :: urls.drop p := by
    have h := List.drop_eq_getElem_cons hp1
    rwa [show p - 1 + 1 = p by omega] at h
  have htake : urls.take p = urls.take (p - 1) ++ [urls[p - 1]] := by
    have h := List.take_succ (l := urls) (n := p - 1)
    rw [show p - 1 + 1 = p by omega] at h
    rw [h, List.getElem?_eq_getElem hp1]
    rfl
  rw [hu, htake, List.foldl_append]
  show (urls.drop p).foldl (stepStore scrape fu)
      (stepStore scrape fu (stepStore scrape fu
        ((urls.take (p - 1)).foldl (stepStore scrape fu) s0) (urls[p - 1]))
        (urls[p - 1])) = _
  rw [stepStore_idem]
  have hrhs : urls.foldl (stepStore scrape fu) s0 =
      (urls.drop p).foldl (stepStore scrape fu)
        ((urls.take p).foldl (stepStore scrape fu) s0) := by
    conv_lhs => rw [← List.take_append_drop p urls]
    rw [List.foldl_append]
  rw [hrhs, htake, List.foldl_append]
  rfl

/-- C3 as amended: pausing at the top of iteration `p` (with iterations
0..p-1 fully processed) persists the cursor `p - 1` — the index of the
**last processed** key, not of the next key to process; resuming from that
checkpoint processes exactly the indices `p - 1, …, length - 1`, so the
key at the saved cursor is processed a second time while no key at an
earlier position is revisited; and the final record store equals that of
an uninterrupted run over the same sequence, because re-upserting the same
scraped data over the row it produced is a no-op. -/
theorem claim3_amended_pause_resume (scrape : String → Option ScrapeData)
    (fu : Bool) (s0 : Store) (urls : List String) (p : Nat) (h0 : 0 < p)
    (hlt : p < urls.length) :
    (runScraper scrape fu s0 urls 0 (some (p, .pause))).savedCheckpoint =
        some (urls, p - 1)
    ∧ (runScraper scrape fu s0 urls 0 (some (p, .pause))).processed =
        List.range' 0 p
    ∧ (runScraper scrape fu
        ((runScraper scrape fu s0 urls 0 (some (p, .pause))).store)
        urls (p - 1) none).processed =
        List.range' (p - 1) (urls.length - (p - 1))
    ∧ (runScraper scrape fu
        ((runScraper scrape fu s0 urls 0 (some (p, .pause))).store)
        urls (p - 1) none).store =
        (runScraper scrape fu s0 urls 0 none).store := by
  obtain ⟨hsaved, hproc, hstore⟩ :=
    runScraper_pause_parts scrape fu s0 urls p h0 hlt
  obtain ⟨hrstore, hrproc⟩ := runScraper_start_parts scrape fu
    ((runScraper scrape fu s0 urls 0 (some (p, .pause))).store) urls (p - 1)
    (by omega)
  refine ⟨hsaved, hproc, hrproc, ?_⟩
  have hnone := (runScraper_start_parts scrape fu s0 urls 0 (by omega)).1
  rw [List.drop_zero] at hnone
  rw [hrstore, hstore, hnone]
  exact foldl_take_drop_idem scrape fu s0 urls p h0 hlt

/-- Witness for C3 as amended: the two-key sequence paused before
iteration 1 saves cursor 0, and resuming from cursor 0 reprocesses
indices 0 and 1 while reaching the uninterrupted final store. -/
theorem claim3_witness :
    (0 < 1 ∧ 1 < twoUrls.length) ∧
      ((runScraper scrapeConst false emptyStore twoUrls 0
            (some (1, .pause))).savedCheckpoint = some (twoUrls, 1 - 1)
        ∧ (runScraper scrapeConst false emptyStore twoUrls 0
            (some (1, .pause))).processed = List.range' 0 1
        ∧ (runScraper scrapeConst false
            ((runScraper scrapeConst false emptyStore twoUrls 0
              (some (1, .pause))).store)
            twoUrls (1 - 1) none).processed =
            List.range' (1 - 1) (twoUrls.length - (1 - 1))
        ∧ (runScraper scrapeConst false
            ((runScraper scrapeConst false emptyStore twoUrls 0
              (some (1, .pause))).store)
            twoUrls (1 - 1) none).store =
            (runScraper scrapeConst false emptyStore twoUrls 0 none).store) :=
  ⟨⟨by decide, by decide⟩,
    claim3_amended_pause_resume scrapeConst false emptyStore twoUrls 1
      (by decide) (by decide)⟩

/-- C7 as amended: a caller-requested stop ends the run without persisting
a checkpoint, but it takes the same exit path as normal completion: any
existing checkpoint is deleted and the `Completed` outcome is emitted with
the total-fetched count — so `Completed` is emitted whenever the run ends
un-paused (on stop as well as when the cursor reaches the end), not
exactly at the end of the sequence; only a pause persists
`{sequence, cursor}`, leaves the checkpoint in place, and emits `Paused`
instead. -/
theorem claim7_amended_exit_paths (scrape : String → Option ScrapeData)
    (fu : Bool) (s0 : Store) (urls : List String) (startIdx p : Nat)
    (hne : urls ≠ []) :
    ((runScraper scrape fu s0 urls startIdx (some (p, .stop))).savedCheckpoint =
        none
      ∧ (runScraper scrape fu s0 urls startIdx (some (p, .stop))).cleared = true
      ∧ (runScraper scrape fu s0 urls startIdx (some (p, .stop))).outcome =
          .finished (runScraper scrape fu s0 urls startIdx (some (p, .stop))).count)
    ∧ ((runScraper scrape fu s0 urls startIdx none).savedCheckpoint = none
      ∧ (runScraper scrape fu s0 urls startIdx none).cleared = true
      ∧ (runScraper scrape fu s0 urls startIdx none).outcome =
          .finished (runScraper scrape fu s0 urls startIdx none).count)
    ∧ ((runScraper scrape fu s0 urls startIdx (some (p, .pause))).savedCheckpoint =
        some (urls,
          (runScraper scrape fu s0 urls startIdx (some (p, .pause))).currentIndex)
      ∧ (runScraper scrape fu s0 urls startIdx (some (p, .pause))).cleared = false
      ∧ (runScraper scrape fu s0 urls startIdx (some (p, .pause))).outcome =
          .pausedAt
            (runScraper scrape fu s0 urls startIdx (some (p, .pause))).currentIndex
            urls.length) := by
  have hni : urls.isEmpty = false := by
    cases urls with
    | nil => exact absurd rfl hne
    | cons a t => rfl
  refine ⟨⟨rfl, rfl, rfl⟩, ⟨rfl, rfl, rfl⟩, ?_, rfl, rfl⟩
  show (if urls.isEmpty then none
      else some (urls, (crawlLoop scrape fu urls (haltOf (some (p, Req.pause)))
        (List.range' startIdx (urls.length - startIdx))
        ⟨s0, 0, 0, 0, []⟩).currentIndex)) = _
  rw [hni]
  rfl

/-- Witness for C7 as amended: a stop over the two-key sequence clears the
slot and emits `finished` with the run's count. -/
theorem claim7_witness :
    twoUrls ≠ [] ∧
      ((runScraper scrapeConst false emptyStore twoUrls 0
          (some (1, .stop))).savedCheckpoint = none
        ∧ (runScraper scrapeConst false emptyStore twoUrls 0
            (some (1, .stop))).cleared = true
        ∧ (runScraper scrapeConst false emptyStore twoUrls 0
            (some (1, .stop))).outcome =
            .finished (runScraper scrapeConst false emptyStore twoUrls 0
              (some (1, .stop))).count) :=
  ⟨by decide,
    (claim7_amended_exit_paths scrapeConst false emptyStore twoUrls 0 1
      (by decide)).1⟩
